import Mathlib

/-!
Verification development for the Minecraft-launcher core
(`src/lib.rs`): the SHA-1 digest verifier, the artifact
synchronization engine, the chunked batch fetch loop, and the
rule-based argument template resolver, modelled shallowly in Lean.
Byte buffers are `List Nat` (each entry < 256), 32-bit machine words
are `Nat` reduced mod 2^32.
-/

set_option maxRecDepth 4000

namespace Launcher

/-- Reduce to a 32-bit word (Rust `u32` wrap-around). -/
def w32 (n : Nat) : Nat := n % 4294967296

/-- Rotate the 32-bit word `n` left by `s` bits (`u32::rotate_left`). -/
def rotl (s n : Nat) : Nat := w32 (n * 2 ^ s) + n / 2 ^ (32 - s)

/-- SHA-1 round function `f_t` (FIPS 180-4), as computed by the `sha1` crate. -/
def sha1F (t b c d : Nat) : Nat :=
  if t < 20 then (b &&& c) ||| ((b ^^^ 0xFFFFFFFF) &&& d)
  else if t < 40 then b ^^^ c ^^^ d
  else if t < 60 then (b &&& c) ||| (b &&& d) ||| (c &&& d)
  else b ^^^ c ^^^ d

/-- SHA-1 round constant `K_t`. -/
def sha1K (t : Nat) : Nat :=
  if t < 20 then 0x5A827999
  else if t < 40 then 0x6ED9EBA1
  else if t < 60 then 0x8F1BBCDC
  else 0xCA62C1D6

/-- Big-endian 8-byte encoding of `n` (the SHA-1 length field). -/
def be64 (n : Nat) : List Nat :=
  [n / 2 ^ 56 % 256, n / 2 ^ 48 % 256, n / 2 ^ 40 % 256, n / 2 ^ 32 % 256,
   n / 2 ^ 24 % 256, n / 2 ^ 16 % 256, n / 2 ^ 8 % 256, n % 256]

/-- SHA-1 message padding: `0x80`, zeros to 56 mod 64, then the bit length. -/
def sha1Pad (msg : List Nat) : List Nat :=
  msg ++ 0x80 :: (List.replicate ((119 - msg.length % 64) % 64) 0 ++ be64 (msg.length * 8))

/-- Group bytes into big-endian 32-bit words. -/
def bytesToWords : List Nat → List Nat
  | a :: b :: c :: d :: rest => (((a * 256 + b) * 256 + c) * 256 + d) :: bytesToWords rest
  | _ => []

/-- Fuel-bounded worker for `chunksOf`; each step emits one chunk of
`n + 1` elements, and any fuel at least the list length is enough. -/
def chunksOfAux : Nat → Nat → List α → List (List α)
  | 0, _, _ => []
  | _ + 1, _, [] => []
  | fuel + 1, n, x :: xs => (x :: xs.take n) :: chunksOfAux fuel n (xs.drop n)

/-- Split a list into consecutive chunks of size `n` (the last may be
shorter), as Rust `slice::chunks(n)` does on a non-empty slice. -/
def chunksOf (n : Nat) (xs : List α) : List (List α) :=
  match n with
  | 0 => []
  | m + 1 => chunksOfAux xs.length m xs

/-- Extend the 16-word message schedule to 80 words; the accumulator is
kept most-recent-first, so `W[t-3]` is entry 2, …, `W[t-16]` is entry 15. -/
def sha1Extend : Nat → List Nat → List Nat
  | 0, acc => acc
  | fuel + 1, acc =>
      sha1Extend fuel
        (rotl 1 (acc.getD 2 0 ^^^ acc.getD 7 0 ^^^ acc.getD 13 0 ^^^ acc.getD 15 0) :: acc)

/-- One SHA-1 compression round: state `(a,b,c,d,e)` with round index and
schedule word. -/
def sha1Round (st : Nat × Nat × Nat × Nat × Nat) (tw : Nat × Nat) :
    Nat × Nat × Nat × Nat × Nat :=
  (w32 (rotl 5 st.1 + sha1F tw.1 st.2.1 st.2.2.1 st.2.2.2.1 + st.2.2.2.2 + sha1K tw.1 + tw.2),
   st.1, rotl 30 st.2.1, st.2.2.1, st.2.2.2.1)

/-- Process one 64-byte block against the running hash state. -/
def sha1ProcessBlock (h : Nat × Nat × Nat × Nat × Nat) (block : List Nat) :
    Nat × Nat × Nat × Nat × Nat :=
  let ws := (sha1Extend 64 (bytesToWords block).reverse).reverse
  let r := ((List.range 80).zip ws).foldl sha1Round h
  (w32 (h.1 + r.1), w32 (h.2.1 + r.2.1), w32 (h.2.2.1 + r.2.2.1),
   w32 (h.2.2.2.1 + r.2.2.2.1), w32 (h.2.2.2.2 + r.2.2.2.2))

/-- Fold `sha1ProcessBlock` over successive 64-byte blocks; `fuel` bounds
the recursion and any value at least the byte count gives the same result. -/
def sha1Blocks : Nat → Nat × Nat × Nat × Nat × Nat → List Nat → Nat × Nat × Nat × Nat × Nat
  | 0, h, _ => h
  | _ + 1, h, [] => h
  | fuel + 1, h, b :: bs =>
      sha1Blocks fuel (sha1ProcessBlock h ((b :: bs).take 64)) ((b :: bs).drop 64)

/-- The five 32-bit words of the SHA-1 digest of `msg`. -/
def sha1Words (msg : List Nat) : Nat × Nat × Nat × Nat × Nat :=
  sha1Blocks (sha1Pad msg).length
    (0x67452301, 0xEFCDAB89, 0x98BADCFE, 0x10325476, 0xC3D2E1F0) (sha1Pad msg)

/-- One lowercase hexadecimal digit, as Rust `{:x}` formatting produces. -/
def hexDigit (n : Nat) : Char := if n < 10 then Char.ofNat (48 + n) else Char.ofNat (87 + n)

/-- Eight lowercase hex digits of a 32-bit word, most significant first. -/
def toHex32 (n : Nat) : List Char :=
  [hexDigit (n / 16 ^ 7 % 16), hexDigit (n / 16 ^ 6 % 16), hexDigit (n / 16 ^ 5 % 16),
   hexDigit (n / 16 ^ 4 % 16), hexDigit (n / 16 ^ 3 % 16), hexDigit (n / 16 ^ 2 % 16),
   hexDigit (n / 16 % 16), hexDigit (n % 16)]

/-- The 40-character lowercase hex encoding of the SHA-1 digest of `msg`:
Rust `format!("{:x}", hasher.finalize())`. -/
def sha1Hex (msg : List Nat) : String :=
  String.mk (toHex32 (sha1Words msg).1 ++ toHex32 (sha1Words msg).2.1 ++
    toHex32 (sha1Words msg).2.2.1 ++ toHex32 (sha1Words msg).2.2.2.1 ++
    toHex32 (sha1Words msg).2.2.2.2)

/-- `check_sha1_matches` from `lib.rs`: hash the buffer, format the digest
as lowercase hex, and compare that string for exact equality with the
expected digest. -/
def check_sha1_matches (bytes : List Nat) (sha1 : String) : Bool :=
  sha1Hex bytes == sha1

/-! ## Artifact store client (`download_artifact`) and the asset-object loop -/

/-- The observable state of one destination path: whether the file exists
and, if so, its bytes. -/
structure FsState where
  fileExists : Bool
  bytes : List Nat
deriving DecidableEq, Repr

/-- Outcome of one `download_artifact` call: the early `return Ok(())` when
the on-disk bytes already verify, the final `Ok(())` after fetch + write, or
the `panic!("Incorrect hash")` on fetched-byte mismatch. -/
inductive SyncOutcome where
  | alreadyValid
  | fetched
  | panicIncorrectHash
deriving DecidableEq, Repr

/-- Result of one `download_artifact` call: outcome, resulting file state,
and whether a network fetch was performed. -/
structure SyncResult where
  outcome : SyncOutcome
  state : FsState
  didFetch : Bool
deriving DecidableEq, Repr

/-- `download_artifact` from `lib.rs`: if the destination exists and its
bytes match the expected digest, return early with no fetch; otherwise
fetch `remoteBytes` from the URL, panic on digest mismatch, else write. -/
def download_artifact (st : FsState) (sha1 : String) (remoteBytes : List Nat) : SyncResult :=
  if st.fileExists && check_sha1_matches st.bytes sha1 then
    ⟨.alreadyValid, st, false⟩
  else if check_sha1_matches remoteBytes sha1 then
    ⟨.fetched, ⟨true, remoteBytes⟩, true⟩
  else
    ⟨.panicIncorrectHash, st, true⟩

/-- The asset-object step of `launch_minecraft`: an asset is skipped iff its
destination file exists (`!asset_file.exists()` filter); otherwise the
fetched bytes are written with no digest verification. Returns the new
file state and whether a fetch happened. -/
def syncAsset (st : FsState) (remoteBytes : List Nat) : FsState × Bool :=
  if st.fileExists then (st, false) else (⟨true, remoteBytes⟩, true)

/-! ## Batch fetch scheduler: `chunks(4)` + `join_all` -/

/-- Completion model of `futures::future::join_all`: tasks of one batch
finish in an arbitrary order (`sched` lists indices in completion order),
and each completed task deposits its result at its own input index. -/
def runTasks (f : α → β) (xs : List α) : List Nat → List (Option β) → List (Option β)
  | [], acc => acc
  | i :: rest, acc => runTasks f xs rest (acc.set i ((xs.get? i).map f))

/-- Run one batch to completion under completion order `sched`. -/
def joinAll (f : α → β) (xs : List α) (sched : List Nat) : List (Option β) :=
  runTasks f xs sched (List.replicate xs.length none)

/-- The chunked download loop of `launch_minecraft`: split the inputs into
batches of 4, run each batch under its own completion order, and append
the batch results in batch order. -/
def sync_all (f : α → β) (xs : List α) (scheds : List (List Nat)) : List (Option β) :=
  ((chunksOf 4 xs).zip scheds).foldr (fun p acc => joinAll f p.1 p.2 ++ acc) []

/-! ## Rule evaluator and template resolver (`resolve_arguments`) -/

/-- `OSProperties` from `lib.rs`. -/
structure OSProperties where
  name : String
  arch : String
deriving DecidableEq, Repr

/-- `ArgumentQuery` from `lib.rs`; the `HashMap` of constants is modelled
as an association list with unique keys. -/
structure ArgumentQuery where
  constants : List (String × String)
  features : List String
  os_properties : OSProperties
deriving DecidableEq, Repr

/-- `RuleAction`: `Allow` / `Deny` (the spec's Include / Exclude). -/
inductive RuleAction where
  | allow
  | deny
deriving DecidableEq, Repr

/-- `ArgumentRuleOSConstraint` from `lib.rs`. -/
structure ArgumentRuleOSConstraint where
  name : Option String
  arch : Option String
deriving DecidableEq, Repr

/-- `Rule` from `lib.rs`; the feature `HashMap<String, bool>` is modelled
as an association list of (feature, required state) entries. -/
structure Rule where
  action : RuleAction
  features : Option (List (String × Bool))
  os : Option ArgumentRuleOSConstraint
deriving DecidableEq, Repr

/-- `RuleType`: a guarded value is a single string or an array of strings. -/
inductive RuleType where
  | string (s : String)
  | array (xs : List String)
deriving DecidableEq, Repr

/-- `LaunchArgument`: a literal string or a rule-guarded value. -/
inductive LaunchArgument where
  | string (s : String)
  | rules (rules : List Rule) (value : RuleType)
deriving DecidableEq, Repr

/-- The feature check of `resolve_arguments` (line 207-209): with no
requirement it passes; otherwise every entry must satisfy
`arg_query.features.contains(feature) || !state`. -/
def passedFeatures (q : ArgumentQuery) (features : Option (List (String × Bool))) : Bool :=
  match features with
  | none => true
  | some fs => fs.all fun p => q.features.contains p.1 || !p.2

/-- The platform check of `resolve_arguments` (line 211-217): each present
sub-field must equal the corresponding `os_properties` field. -/
def passedOs (q : ArgumentQuery) (os : Option ArgumentRuleOSConstraint) : Bool :=
  match os with
  | none => true
  | some c =>
      (match c.name with
       | none => true
       | some n => q.os_properties.name == n) &&
      (match c.arch with
       | none => true
       | some a => q.os_properties.arch == a)

/-- One rule passes iff `(passed_features && passed_os) != (action == Deny)`
(line 220-221). -/
def rulePasses (q : ArgumentQuery) (r : Rule) : Bool :=
  (passedFeatures q r.features && passedOs q r.os) != (r.action == .deny)

/-- The strings a `RuleType` value contributes when its rules pass. -/
def ruleTypeStrings : RuleType → List String
  | .string s => [s]
  | .array v => v

/-- The `str_forms` of one argument (line 203-233): a literal contributes
itself; a guarded value contributes its strings iff all rules pass. -/
def strForms (q : ArgumentQuery) : LaunchArgument → List String
  | .string s => [s]
  | .rules rules value => if rules.all (rulePasses q) then ruleTypeStrings value else []

/-- The ASCII fragment `[A-Za-z0-9_]` of the word-character class in the
pattern `\$\x7b(?<key>\w+)}` (line 200). The regex crate's `\w` is
Unicode-aware, a strict superset of this: on ASCII characters the two
agree, but non-ASCII word characters (such as `é`, U+00E9, Alphabetic)
are in `\w` and not here. The scanner below is therefore parametrized by
the word-character predicate, and this instance is used only where the
characters involved are ASCII. -/
def isWordChar (c : Char) : Bool := c.isAlphanum || c == '_'

/-- The replacement the closure at line 236-245 produces for a captured
key: the constants-table value when present, the empty string otherwise. -/
def lookupOrEmpty (consts : List (String × String)) (key : String) : String :=
  match consts.lookup key with
  | some x => x
  | none => ""

/-- Scanner state while matching the placeholder pattern: outside any
candidate token, just after `$`, or after the opening brace with the word
characters collected so far. -/
inductive ScanMode where
  | normal
  | dollar
  | key (acc : List Char)
deriving DecidableEq, Repr

/-- Character-level model of `Regex::replace_all` for the pattern
`\$\x7b(?<key>\w+)}`, parametrized by the word-character predicate `wc`
standing for the regex class `\w`: leftmost non-overlapping matches are
replaced by the closure's output; everything else is copied verbatim. -/
def scanWith (wc : Char → Bool) (consts : List (String × String)) :
    ScanMode → List Char → List Char
  | .normal, [] => []
  | .dollar, [] => ['$']
  | .key acc, [] => '$' :: '{' :: acc
  | .normal, c :: rest =>
      if c = '$' then scanWith wc consts .dollar rest
      else c :: scanWith wc consts .normal rest
  | .dollar, c :: rest =>
      if c = '{' then scanWith wc consts (.key []) rest
      else if c = '$' then '$' :: scanWith wc consts .dollar rest
      else '$' :: c :: scanWith wc consts .normal rest
  | .key acc, c :: rest =>
      if wc c then scanWith wc consts (.key (acc ++ [c])) rest
      else if c = '}' then
        match acc with
        | [] => '$' :: '{' :: '}' :: scanWith wc consts .normal rest
        | _ :: _ => (lookupOrEmpty consts (String.mk acc)).data ++ scanWith wc consts .normal rest
      else if c = '$' then '$' :: '{' :: (acc ++ scanWith wc consts .dollar rest)
      else '$' :: '{' :: (acc ++ c :: scanWith wc consts .normal rest)

/-- `replace_all` applied to one string, with word-character class `wc`. -/
def substituteArgWith (wc : Char → Bool) (consts : List (String × String)) (s : String) :
    String :=
  String.mk (scanWith wc consts .normal s.data)

/-- Placeholder substitution applied to one contributed string
(`arg_regex.replace_all` at line 236-245), at the ASCII instance of the
word-character class. -/
def substituteArg (consts : List (String × String)) (s : String) : String :=
  substituteArgWith isWordChar consts s

/-- `resolve_arguments` from `lib.rs`: for each argument in order, compute
its `str_forms`, substitute placeholders in each, and append the results. -/
def resolve_arguments (arguments : List LaunchArgument) (q : ArgumentQuery) : List String :=
  arguments.foldr (fun arg acc => (strForms q arg).map (substituteArg q.constants) ++ acc) []

/-- A lowercase hexadecimal character, identified by its code point. -/
def isLowerHexChar (c : Char) : Bool :=
  (48 ≤ c.toNat && c.toNat ≤ 57) || (97 ≤ c.toNat && c.toNat ≤ 102)

/-! ## Helper lemmas -/

theorem resolve_arguments_nil (q : ArgumentQuery) : resolve_arguments [] q = [] := rfl

theorem dropWhile_head_false (p : α → Bool) (l : List α) (c : α) (cs : List α)
    (h : l.dropWhile p = c :: cs) : p c = false := by
  induction l with
  | nil => simp at h
  | cons a l ih =>
      rw [List.dropWhile_cons] at h
      by_cases ha : p a = true
      · rw [if_pos ha] at h
        exact ih h
      · rw [if_neg ha] at h
        injection h with h1 _
        subst h1
        cases hv : p a
        · rfl
        · exact absurd hv ha

theorem resolve_arguments_cons (a : LaunchArgument) (xs : List LaunchArgument)
    (q : ArgumentQuery) :
    resolve_arguments (a :: xs) q =
      (strForms q a).map (substituteArg q.constants) ++ resolve_arguments xs q := rfl

theorem resolve_arguments_append (xs ys : List LaunchArgument) (q : ArgumentQuery) :
    resolve_arguments (xs ++ ys) q = resolve_arguments xs q ++ resolve_arguments ys q := by
  induction xs with
  | nil => rfl
  | cons a xs ih =>
      simp only [List.cons_append, resolve_arguments_cons, ih, List.append_assoc]

theorem hexDigit_lowerHex : ∀ m < 16, isLowerHexChar (hexDigit m) = true := by decide

theorem toHex32_lowerHex (n : Nat) : ∀ c ∈ toHex32 n, isLowerHexChar c = true := by
  intro c hc
  simp only [toHex32, List.mem_cons, List.mem_singleton, List.not_mem_nil, or_false] at hc
  rcases hc with h | h | h | h | h | h | h | h <;>
    exact h ▸ hexDigit_lowerHex _ (Nat.mod_lt _ (by norm_num))

theorem sha1Hex_lowerHex (msg : List Nat) :
    ∀ c ∈ (sha1Hex msg).data, isLowerHexChar c = true := by
  intro c hc
  simp only [sha1Hex, String.mk, List.mem_append] at hc
  rcases hc with ((((h | h) | h) | h) | h) <;> exact toHex32_lowerHex _ c h

/-! ## Claim theorems for the digest verifier and the artifact store client -/

/-- Claim C3 (amended): the digest verifier returns true iff the expected
string is exactly the lowercase hex encoding of the buffer's SHA-1 digest;
the comparison is case-sensitive, so an expected digest containing an
uppercase letter never matches. It is a total function on all inputs. -/
theorem C3_digest_comparison (bytes : List Nat) (expected : String) :
    (check_sha1_matches bytes expected = true ↔ sha1Hex bytes = expected) ∧
    ((∃ c ∈ expected.data, 65 ≤ c.toNat ∧ c.toNat ≤ 90) →
      check_sha1_matches bytes expected = false) := by
  have hiff : check_sha1_matches bytes expected = true ↔ sha1Hex bytes = expected := by
    simp [check_sha1_matches]
  refine ⟨hiff, ?_⟩
  rintro ⟨c, hc, hA, hZ⟩
  by_contra hne
  have htrue : check_sha1_matches bytes expected = true := by
    cases h : check_sha1_matches bytes expected
    · exact absurd h hne
    · rfl
  have hexq : sha1Hex bytes = expected := hiff.mp htrue
  have hmem : c ∈ (sha1Hex bytes).data := by rw [hexq]; exact hc
  have := sha1Hex_lowerHex bytes c hmem
  simp only [isLowerHexChar, Bool.or_eq_true, Bool.and_eq_true, decide_eq_true_eq] at this
  omega

/-- Claim C3 witness: the lowercase digest of the empty buffer matches and
an uppercase letter in the expected string forces a mismatch. -/
theorem C3_digest_comparison_witness :
    check_sha1_matches [] "da39a3ee5e6b4b0d3255bfef95601890afd80709" = true ∧
    check_sha1_matches [] "DA39A3EE5E6B4B0D3255BFEF95601890AFD80709" = false :=
  ⟨(C3_digest_comparison [] "da39a3ee5e6b4b0d3255bfef95601890afd80709").1.mpr (by decide),
   (C3_digest_comparison [] "DA39A3EE5E6B4B0D3255BFEF95601890AFD80709").2
     ⟨'D', by decide, by decide, by decide⟩⟩

/-- Claim C3 counterexample: the comparison is not case-normalized — the
same buffer matches its lowercase digest but not the uppercase form of the
very same digest, refuting the claimed case-insensitive iff. -/
theorem C3_counterexample :
    check_sha1_matches [] "da39a3ee5e6b4b0d3255bfef95601890afd80709" = true ∧
    check_sha1_matches [] "DA39A3EE5E6B4B0D3255BFEF95601890AFD80709" = false := by
  constructor <;> decide

/-- Claim C4: whenever `download_artifact` actually fetches and the fetched
bytes fail digest verification, it panics (a fatal integrity failure) and
the destination file state is left untouched — the corrupt bytes are never
written. -/
theorem C4_no_corrupt_write (st : FsState) (sha : String) (rb : List Nat)
    (hbad : check_sha1_matches rb sha = false) :
    (download_artifact st sha rb).didFetch = true →
    (download_artifact st sha rb).outcome = .panicIncorrectHash ∧
      (download_artifact st sha rb).state = st := by
  intro hfetch
  unfold download_artifact at hfetch ⊢
  by_cases h1 : (st.fileExists && check_sha1_matches st.bytes sha) = true
  · rw [if_pos h1] at hfetch
    simp at hfetch
  · rw [if_neg h1, if_neg (by simp [hbad])]
    exact ⟨rfl, rfl⟩

/-- Claim C4 witness: fetching a 1-byte file against the digest of the
empty file panics without writing. -/
theorem C4_no_corrupt_write_witness :
    (download_artifact ⟨false, []⟩ "da39a3ee5e6b4b0d3255bfef95601890afd80709" [0]).outcome =
        .panicIncorrectHash ∧
      (download_artifact ⟨false, []⟩ "da39a3ee5e6b4b0d3255bfef95601890afd80709" [0]).state =
        ⟨false, []⟩ :=
  C4_no_corrupt_write ⟨false, []⟩ "da39a3ee5e6b4b0d3255bfef95601890afd80709" [0]
    (by decide) (by decide)

/-- Claim C5: if the destination already holds bytes that verify, `ensure`
returns `AlreadyValid` with no fetch and no state change; and after any
non-panicking call, a second call with the same descriptor returns
`AlreadyValid` with no fetch — `ensure` is idempotent on a valid cache. -/
theorem C5_idempotent (st : FsState) (sha : String) (rb rb2 : List Nat) :
    (st.fileExists = true → check_sha1_matches st.bytes sha = true →
      download_artifact st sha rb = ⟨.alreadyValid, st, false⟩) ∧
    ((download_artifact st sha rb).outcome ≠ .panicIncorrectHash →
      download_artifact (download_artifact st sha rb).state sha rb2 =
        ⟨.alreadyValid, (download_artifact st sha rb).state, false⟩) := by
  constructor
  · intro hex hok
    unfold download_artifact
    rw [if_pos (by simp [hex, hok])]
  · intro hnp
    by_cases h1 : (st.fileExists && check_sha1_matches st.bytes sha) = true
    · unfold download_artifact
      simp only [if_pos h1]
    · by_cases h2 : check_sha1_matches rb sha = true
      · unfold download_artifact
        simp only [if_neg h1, if_pos h2]
        rw [if_pos (by simp [h2])]
      · exfalso
        apply hnp
        unfold download_artifact
        rw [if_neg h1, if_neg h2]

/-- Claim C5 witness: a fresh fetch of the empty file followed by a second
call produces `AlreadyValid` with no second fetch. -/
theorem C5_idempotent_witness :
    download_artifact ⟨true, []⟩ "da39a3ee5e6b4b0d3255bfef95601890afd80709" [0] =
        ⟨.alreadyValid, ⟨true, []⟩, false⟩ ∧
      download_artifact
          (download_artifact ⟨false, []⟩ "da39a3ee5e6b4b0d3255bfef95601890afd80709" []).state
          "da39a3ee5e6b4b0d3255bfef95601890afd80709" [0] =
        ⟨.alreadyValid,
          (download_artifact ⟨false, []⟩ "da39a3ee5e6b4b0d3255bfef95601890afd80709" []).state,
          false⟩ :=
  ⟨(C5_idempotent ⟨true, []⟩ "da39a3ee5e6b4b0d3255bfef95601890afd80709" [0] []).1
      (by decide) (by decide),
   (C5_idempotent ⟨false, []⟩ "da39a3ee5e6b4b0d3255bfef95601890afd80709" [] [0]).2
      (by decide)⟩

/-- Claim C2 counterexample: an asset object whose destination file exists
with bytes whose digest does not match the expected digest (here the digest
of the intended empty content) is treated as valid by the asset loop — no
fetch, no rewrite — refuting the claim for asset objects. -/
theorem C2_counterexample :
    syncAsset ⟨true, [0]⟩ [] = (⟨true, [0]⟩, false) ∧
    check_sha1_matches [0] "da39a3ee5e6b4b0d3255bfef95601890afd80709" = false :=
  ⟨rfl, by decide⟩

/-- Claim C2 (amended): for artifacts ensured via `download_artifact`
(libraries, client jar, asset index) an existing destination file is
treated as valid iff its digest matches, and a mutated file triggers a
re-fetch; asset objects, however, are skipped exactly when the destination
file exists, regardless of its content. -/
theorem C2_validity (st : FsState) (sha : String) (rb : List Nat) :
    (st.fileExists = true →
      (((download_artifact st sha rb).outcome = .alreadyValid) ↔
          check_sha1_matches st.bytes sha = true) ∧
        (check_sha1_matches st.bytes sha = false →
          (download_artifact st sha rb).didFetch = true)) ∧
      ((syncAsset st rb).2 = false ↔ st.fileExists = true) := by
  constructor
  · intro hex
    by_cases hv : check_sha1_matches st.bytes sha = true
    · constructor
      · unfold download_artifact
        rw [if_pos (by simp [hex, hv])]
        simp [hv]
      · intro hbad
        rw [hbad] at hv
        simp at hv
    · have hne : ¬(st.fileExists && check_sha1_matches st.bytes sha) = true := by
        simp [hex, hv]
      constructor
      · unfold download_artifact
        rw [if_neg hne]
        by_cases h2 : check_sha1_matches rb sha = true
        · rw [if_pos h2]
          simp [hv]
        · rw [if_neg h2]
          simp [hv]
      · intro _
        unfold download_artifact
        rw [if_neg hne]
        by_cases h2 : check_sha1_matches rb sha = true
        · rw [if_pos h2]
        · rw [if_neg h2]
  · unfold syncAsset
    cases hex : st.fileExists <;> simp [hex]

/-- Claim C2 witness: a corrupt existing file makes `download_artifact`
re-fetch, while the same corrupt existing asset file is skipped. -/
theorem C2_validity_witness :
    (download_artifact ⟨true, [0]⟩ "da39a3ee5e6b4b0d3255bfef95601890afd80709" []).didFetch
        = true ∧
      (syncAsset ⟨true, [0]⟩ []).2 = false :=
  ⟨((C2_validity ⟨true, [0]⟩ "da39a3ee5e6b4b0d3255bfef95601890afd80709" []).1
      (by decide)).2 (by decide),
   (C2_validity ⟨true, [0]⟩ "da39a3ee5e6b4b0d3255bfef95601890afd80709" []).2.mpr (by decide)⟩

/-! ## Claim theorems for the rule evaluator -/

/-- Claim C1 counterexample: with feature `demo` enabled, a requirement
mapping `demo` to `false` still passes the feature check, and the guarded
value is included — refuting the claimed equality-with-required-state
semantics, under which this entry must fail. -/
theorem C1_counterexample :
    passedFeatures ⟨[], ["demo"], ⟨"windows", "x86_64"⟩⟩ (some [("demo", false)]) = true ∧
    (["demo"] : List String).contains "demo" = true ∧
    resolve_arguments
        [.rules [⟨.allow, some [("demo", false)], none⟩] (.string "--demo")]
        ⟨[], ["demo"], ⟨"windows", "x86_64"⟩⟩ = ["--demo"] := by
  refine ⟨by decide, by decide, by decide⟩

/-- Claim C1 (amended): the feature check passes iff every entry whose
required state is `true` names an enabled feature; an entry whose required
state is `false` imposes no constraint at all, so it passes even when the
feature is enabled. -/
theorem C1_feature_check (q : ArgumentQuery) (entries : List (String × Bool)) :
    passedFeatures q (some entries) = true ↔
      ∀ p ∈ entries, p.2 = true → q.features.contains p.1 = true := by
  simp only [passedFeatures, List.all_eq_true]
  constructor
  · intro h p hp hstate
    have hor := h p hp
    rw [hstate] at hor
    simpa using hor
  · intro h p hp
    cases hb : p.2
    · simp [hb]
    · have hc := h p hp hb
      simp [hb]
      simpa using hc

/-- Claim C1 witness: a `true` entry of an enabled feature passes; the same
check applied concretely. -/
theorem C1_feature_check_witness :
    passedFeatures ⟨[], ["demo"], ⟨"windows", "x86_64"⟩⟩ (some [("demo", true)]) = true :=
  (C1_feature_check ⟨[], ["demo"], ⟨"windows", "x86_64"⟩⟩ [("demo", true)]).mpr (by decide)

/-! ## Scanner lemmas -/

theorem scanWith_keyWalk (wc : Char → Bool) (consts : List (String × String)) (w : List Char) :
    ∀ (acc rest : List Char), (∀ c ∈ w, wc c = true) →
      scanWith wc consts (.key acc) (w ++ rest) = scanWith wc consts (.key (acc ++ w)) rest := by
  induction w with
  | nil => intro acc rest _; simp
  | cons c w ih =>
      intro acc rest h
      have hc : wc c = true := h c (by simp)
      simp only [List.cons_append, scanWith, hc, if_pos, List.append_eq]
      rw [ih (acc ++ [c]) rest fun x hx => h x (by simp [hx])]
      simp

theorem scanWith_noDollar (wc : Char → Bool) (consts : List (String × String)) (l : List Char) :
    ∀ rest, '$' ∉ l →
      scanWith wc consts .normal (l ++ rest) = l ++ scanWith wc consts .normal rest := by
  induction l with
  | nil => intro rest _; rfl
  | cons c l ih =>
      intro rest h
      have hc : ¬(c = '$') := fun e => h (by simp [e])
      simp only [List.cons_append, scanWith, if_neg hc, List.append_eq]
      rw [ih rest fun m => h (List.mem_cons_of_mem _ m)]

theorem scanWith_noDollar_nil (wc : Char → Bool) (consts : List (String × String))
    (l : List Char) (h : '$' ∉ l) : scanWith wc consts .normal l = l := by
  have := scanWith_noDollar wc consts l [] h
  simpa [scanWith] using this

theorem scanWith_token (wc : Char → Bool) (consts : List (String × String))
    (hbr : wc '}' = false) (k rest : List Char)
    (hne : k ≠ []) (hw : ∀ c ∈ k, wc c = true) :
    scanWith wc consts .normal ('$' :: '{' :: (k ++ '}' :: rest)) =
      (lookupOrEmpty consts (String.mk k)).data ++ scanWith wc consts .normal rest := by
  have h1 : scanWith wc consts .normal ('$' :: '{' :: (k ++ '}' :: rest)) =
      scanWith wc consts (.key []) (k ++ '}' :: rest) := by simp [scanWith]
  rw [h1, scanWith_keyWalk wc consts k [] ('}' :: rest) hw]
  obtain ⟨c, k', rfl⟩ : ∃ c k', k = c :: k' := by
    cases k
    · exact absurd rfl hne
    · exact ⟨_, _, rfl⟩
  simp [scanWith, hbr]

/-! ## Claim theorems for the template resolver -/

/-- Claim C6: a guarded spec's value is included iff every clause passes;
one clause passes iff (feature check AND platform check) XOR
(action = Deny); the clause (Deny, os.name = windows) passes exactly when
the platform name is not windows; and a spec guarded by two clauses is
included only when both pass. -/
theorem C6_clause_semantics (q : ArgumentQuery) (rules : List Rule) (value : RuleType) :
    (resolve_arguments [.rules rules value] q =
        if rules.all (rulePasses q) then
          (ruleTypeStrings value).map (substituteArg q.constants)
        else []) ∧
    (∀ r : Rule, rulePasses q r =
        ((passedFeatures q r.features && passedOs q r.os) != (r.action == .deny))) ∧
    (rulePasses q ⟨.deny, none, some ⟨some "windows", none⟩⟩ =
        !(q.os_properties.name == "windows")) ∧
    (∀ (c1 c2 : Rule) (v : RuleType),
        resolve_arguments [.rules [c1, c2] v] q ≠ [] →
        rulePasses q c1 = true ∧ rulePasses q c2 = true) := by
  refine ⟨?_, fun r => rfl, ?_, ?_⟩
  · rw [resolve_arguments_cons]
    simp only [strForms]
    split_ifs with h <;> simp [resolve_arguments_nil]
  · cases h : q.os_properties.name == "windows" <;>
      simp [rulePasses, passedFeatures, passedOs, h]
  · intro c1 c2 v h
    have hall : [c1, c2].all (rulePasses q) = true := by
      by_contra hna
      apply h
      rw [resolve_arguments_cons]
      simp only [strForms, if_neg hna, List.map_nil, List.nil_append]
      rfl
    simpa using hall

/-- Claim C6 witness: with platform windows and feature X enabled, a spec
guarded by an os clause and a feature clause is included, and both clauses
pass. -/
theorem C6_clause_semantics_witness :
    rulePasses ⟨[], ["X"], ⟨"windows", "x86_64"⟩⟩
        ⟨.allow, none, some ⟨some "windows", none⟩⟩ = true ∧
      rulePasses ⟨[], ["X"], ⟨"windows", "x86_64"⟩⟩
        ⟨.allow, some [("X", true)], none⟩ = true :=
  (C6_clause_semantics ⟨[], ["X"], ⟨"windows", "x86_64"⟩⟩ [] (.string "")).2.2.2
    ⟨.allow, none, some ⟨some "windows", none⟩⟩
    ⟨.allow, some [("X", true)], none⟩ (.string "--x") (by decide)

/-- Claim C7: the template resolver is total and degrades gracefully — a
well-formed placeholder token is replaced by the constants-table value when
the key is present and by the empty string otherwise (`lookupOrEmpty`),
surrounding text is preserved, substitution continues after the token, and
resolution continues over the remaining specs. -/
theorem C7_resolver_never_fails :
    (∀ (consts : List (String × String)) (pre k post : String),
        '$' ∉ pre.data → k.data ≠ [] → (∀ c ∈ k.data, isWordChar c = true) →
        substituteArg consts (pre ++ "$\x7b" ++ k ++ "\x7d" ++ post) =
          pre ++ lookupOrEmpty consts k ++ substituteArg consts post) ∧
    (∀ (xs ys : List LaunchArgument) (q : ArgumentQuery),
        resolve_arguments (xs ++ ys) q = resolve_arguments xs q ++ resolve_arguments ys q) := by
  refine ⟨?_, resolve_arguments_append⟩
  intro consts pre k post hpre hk hw
  have hdata : (pre ++ "$\x7b" ++ k ++ "\x7d" ++ post).data =
      pre.data ++ ('$' :: '{' :: (k.data ++ '}' :: post.data)) := by
    simp [String.data_append]
  apply String.ext
  show scanWith isWordChar consts .normal (pre ++ "$\x7b" ++ k ++ "\x7d" ++ post).data = _
  rw [hdata, scanWith_noDollar isWordChar consts pre.data _ hpre,
    scanWith_token isWordChar consts (by decide) k.data post.data hk hw]
  simp [substituteArg, substituteArgWith, lookupOrEmpty, String.data_append]

/-- Claim C7 witness: a present key substitutes its value, a missing key
substitutes the empty string, concretely. -/
theorem C7_resolver_never_fails_witness :
    substituteArg [("version_name", "1.21")]
        ("--version " ++ "$\x7b" ++ "version_name" ++ "\x7d" ++ "") =
      "--version " ++ lookupOrEmpty [("version_name", "1.21")] "version_name" ++
        substituteArg [("version_name", "1.21")] "" ∧
    substituteArg [("version_name", "1.21")] ("" ++ "$\x7b" ++ "missing_key" ++ "\x7d" ++ "") =
      "" ++ lookupOrEmpty [("version_name", "1.21")] "missing_key" ++
        substituteArg [("version_name", "1.21")] "" :=
  ⟨C7_resolver_never_fails.1 [("version_name", "1.21")] "--version " "version_name" ""
      (by decide) (by decide) (by decide),
   C7_resolver_never_fails.1 [("version_name", "1.21")] "" "missing_key" ""
      (by decide) (by decide) (by decide)⟩

/-- Claim C8: output preserves input order and flattens in place — a
literal spec contributes its (substituted) string at its own position
between its neighbours, and a passing guarded array spec contributes each
element in order at its own position, not at the end. -/
theorem C8_in_place_expansion :
    (∀ (q : ArgumentQuery) (pre post : List LaunchArgument) (s : String),
        resolve_arguments (pre ++ LaunchArgument.string s :: post) q =
          resolve_arguments pre q ++
            substituteArg q.constants s :: resolve_arguments post q) ∧
    (∀ (q : ArgumentQuery) (pre post : List LaunchArgument) (rules : List Rule)
        (v : List String), rules.all (rulePasses q) = true →
        resolve_arguments (pre ++ LaunchArgument.rules rules (.array v) :: post) q =
          resolve_arguments pre q ++ v.map (substituteArg q.constants) ++
            resolve_arguments post q) := by
  constructor
  · intro q pre post s
    rw [resolve_arguments_append, resolve_arguments_cons]
    simp [strForms]
  · intro q pre post rules v hall
    rw [resolve_arguments_append, resolve_arguments_cons]
    simp [strForms, hall, ruleTypeStrings, List.append_assoc]

/-- Claim C8 witness: a passing guarded array expands in place between its
neighbours. -/
theorem C8_in_place_expansion_witness :
    resolve_arguments
        ([LaunchArgument.string "--pre"] ++
          LaunchArgument.rules [] (.array ["--a", "--b"]) :: [LaunchArgument.string "--post"])
        ⟨[], [], ⟨"windows", "x86_64"⟩⟩ =
      resolve_arguments [LaunchArgument.string "--pre"] ⟨[], [], ⟨"windows", "x86_64"⟩⟩ ++
        ["--a", "--b"].map (substituteArg ([] : List (String × String))) ++
        resolve_arguments [LaunchArgument.string "--post"] ⟨[], [], ⟨"windows", "x86_64"⟩⟩ :=
  C8_in_place_expansion.2 ⟨[], [], ⟨"windows", "x86_64"⟩⟩ [.string "--pre"]
    [.string "--post"] [] ["--a", "--b"] (by decide)

/-- Claim C10 counterexample: the word-character class of the pattern at
line 200 is the regex crate's Unicode-aware `\w`, which contains `é`
(U+00E9, Alphabetic) while the claim's class `[A-Za-z0-9_]` does not.
Instantiating the scanner's word class at a predicate that, like `\w`,
contains `é` and not the closing brace, the token `$\x7b` `é` `\x7d` is
matched and replaced by the empty string (its key is absent from the
constants table) — not left verbatim as the claim requires. -/
theorem C10_counterexample :
    substituteArgWith (fun c => isWordChar c || c == 'é') []
        ("$\x7b" ++ "é" ++ "\x7d") = "" ∧
      (fun c => isWordChar c || c == 'é') 'é' = true ∧ isWordChar 'é' = false :=
  ⟨by decide, by decide, by decide⟩

/-- Claim C10 (amended): for every word-character predicate standing for
the regex crate's Unicode-aware `\w` class, placeholder substitution
rewrites exactly the tokens whose key is a non-empty run of word
characters — provided, as holds for `\w`, that the closing brace is not a
word character — and a token whose key is empty, or contains a non-word
character (and no brace or dollar), is left verbatim, neither looked up
nor replaced by the empty string. Since `\w` strictly contains
`[A-Za-z0-9_]`, keys such as `a-b`, `a.b` or the empty key stay verbatim,
but non-ASCII word-character keys such as `é` are substituted. -/
theorem C10_word_key_tokens :
    (∀ (wc : Char → Bool) (consts : List (String × String)) (k : String),
        wc '}' = false → k.data ≠ [] → (∀ c ∈ k.data, wc c = true) →
        substituteArgWith wc consts ("$\x7b" ++ k ++ "\x7d") = lookupOrEmpty consts k) ∧
    (∀ (wc : Char → Bool) (consts : List (String × String)) (k : String),
        '$' ∉ k.data → '}' ∉ k.data →
        (k.data = [] ∨ ∃ c ∈ k.data, wc c = false) →
        substituteArgWith wc consts ("$\x7b" ++ k ++ "\x7d") = "$\x7b" ++ k ++ "\x7d") := by
  constructor
  · intro wc consts k hbr hk hw
    apply String.ext
    show scanWith wc consts .normal ("$\x7b" ++ k ++ "\x7d").data = (lookupOrEmpty consts k).data
    have hdata : ("$\x7b" ++ k ++ "\x7d").data =
        '$' :: '{' :: (k.data ++ '}' :: ([] : List Char)) := by
      simp [String.data_append]
    rw [hdata, scanWith_token wc consts hbr k.data [] hk hw]
    simp [scanWith]
  · intro wc consts k hdollar hbrace hcase
    apply String.ext
    show scanWith wc consts .normal ("$\x7b" ++ k ++ "\x7d").data = ("$\x7b" ++ k ++ "\x7d").data
    have hdata : ("$\x7b" ++ k ++ "\x7d").data = '$' :: '{' :: (k.data ++ ['}']) := by
      simp [String.data_append]
    rw [hdata]
    have hstep : scanWith wc consts .normal ('$' :: '{' :: (k.data ++ ['}'])) =
        scanWith wc consts (.key []) (k.data ++ ['}']) := by simp [scanWith]
    rw [hstep]
    rcases hcase with hnil | ⟨c0, hc0mem, hc0⟩
    · rw [hnil]
      by_cases hbw : wc '}' = true
      · simp [scanWith, hbw]
      · have hbw2 : wc '}' = false := by
          cases hv : wc '}'
          · rfl
          · exact absurd hv hbw
        simp [scanWith, hbw2]
    · have hdne : k.data.dropWhile wc ≠ [] := by
        intro h0
        rw [List.dropWhile_eq_nil_iff] at h0
        have := h0 c0 hc0mem
        rw [hc0] at this
        exact absurd this (by simp)
      obtain ⟨c, cs, hdcons⟩ : ∃ c cs, k.data.dropWhile wc = c :: cs := by
        cases hdval : k.data.dropWhile wc
        · exact absurd hdval hdne
        · exact ⟨_, _, rfl⟩
      obtain ⟨w, hwdef⟩ : ∃ w, w = k.data.takeWhile wc := ⟨_, rfl⟩
      have hkdata : k.data = w ++ c :: cs := by
        rw [hwdef, ← hdcons, List.takeWhile_append_dropWhile]
      have hcnw : wc c = false := dropWhile_head_false wc k.data c cs hdcons
      have hcmem : c ∈ k.data := by rw [hkdata]; simp
      have hcsmem : ∀ x ∈ cs, x ∈ k.data := by
        intro x hx
        rw [hkdata]
        simp [hx]
      have hcne1 : ¬(c = '}') := fun e => hbrace (e ▸ hcmem)
      have hcne2 : ¬(c = '$') := fun e => hdollar (e ▸ hcmem)
      have hwall : ∀ x ∈ w, wc x = true := by
        rw [hwdef]
        have hall := List.all_takeWhile (p := wc) (l := k.data)
        rw [List.all_eq_true] at hall
        exact hall
      have hshape : k.data ++ ['}'] = w ++ (c :: (cs ++ ['}'])) := by
        rw [hkdata]
        simp
      rw [hshape, scanWith_keyWalk wc consts _ [] _ hwall]
      simp only [List.nil_append, scanWith, hcnw, Bool.false_eq_true, if_false, if_neg hcne1,
        if_neg hcne2]
      rw [scanWith_noDollar_nil wc consts (cs ++ ['}'])
        (by
          intro hx
          rcases List.mem_append.mp hx with h1 | h1
          · exact hdollar (hcsmem _ h1)
          · simp at h1)]

/-- Claim C10 witness: with the ASCII instance of the word class, `key` is
substituted while `a-b`, `a.b` and the empty key stay verbatim; with a
word class containing `é` as the Unicode-aware `\w` does, the key `é` is
substituted as well. -/
theorem C10_word_key_tokens_witness :
    substituteArgWith isWordChar [("key", "V")] ("$\x7b" ++ "key" ++ "\x7d") =
        lookupOrEmpty [("key", "V")] "key" ∧
    substituteArgWith (fun c => isWordChar c || c == 'é') [("key", "V")]
        ("$\x7b" ++ "é" ++ "\x7d") = lookupOrEmpty [("key", "V")] "é" ∧
    substituteArgWith isWordChar [("key", "V")] ("$\x7b" ++ "a-b" ++ "\x7d") =
        "$\x7b" ++ "a-b" ++ "\x7d" ∧
    substituteArgWith isWordChar [("key", "V")] ("$\x7b" ++ "a.b" ++ "\x7d") =
        "$\x7b" ++ "a.b" ++ "\x7d" ∧
    substituteArgWith isWordChar [("key", "V")] ("$\x7b" ++ "" ++ "\x7d") =
        "$\x7b" ++ "" ++ "\x7d" :=
  ⟨C10_word_key_tokens.1 isWordChar [("key", "V")] "key" (by decide) (by decide) (by decide),
   C10_word_key_tokens.1 (fun c => isWordChar c || c == 'é') [("key", "V")] "é"
     (by decide) (by decide) (by decide),
   C10_word_key_tokens.2 isWordChar [("key", "V")] "a-b" (by decide) (by decide)
     (Or.inr ⟨'-', by decide, by decide⟩),
   C10_word_key_tokens.2 isWordChar [("key", "V")] "a.b" (by decide) (by decide)
     (Or.inr ⟨'.', by decide, by decide⟩),
   C10_word_key_tokens.2 isWordChar [("key", "V")] "" (by decide) (by decide)
     (Or.inl (by decide))⟩

/-! ## Batch scheduler lemmas -/

theorem chunksOfAux_nil (fuel n : Nat) : chunksOfAux fuel n ([] : List α) = [] := by
  cases fuel <;> rfl

theorem chunksOfAux_fuel (n : Nat) : ∀ (fuel1 fuel2 : Nat) (xs : List α),
    xs.length ≤ fuel1 → xs.length ≤ fuel2 → chunksOfAux fuel1 n xs = chunksOfAux fuel2 n xs := by
  intro fuel1
  induction fuel1 with
  | zero =>
      intro fuel2 xs h1 _
      have hx : xs = [] := List.length_eq_zero.mp (Nat.le_zero.mp h1)
      subst hx
      rw [chunksOfAux_nil, chunksOfAux_nil]
  | succ fuel1 ih =>
      intro fuel2 xs h1 h2
      cases xs with
      | nil => rw [chunksOfAux_nil, chunksOfAux_nil]
      | cons x xs' =>
          cases fuel2 with
          | zero => simp at h2
          | succ fuel2 =>
              show (x :: xs'.take n) :: chunksOfAux fuel1 n (xs'.drop n) =
                (x :: xs'.take n) :: chunksOfAux fuel2 n (xs'.drop n)
              congr 1
              apply ih
              · simp only [List.length_drop, List.length_cons] at h1 ⊢
                omega
              · simp only [List.length_drop, List.length_cons] at h2 ⊢
                omega

theorem chunksOf_cons (n : Nat) (x : α) (xs : List α) :
    chunksOf (n + 1) (x :: xs) = (x :: xs.take n) :: chunksOf (n + 1) (xs.drop n) := by
  show chunksOfAux (x :: xs).length n (x :: xs) = _
  rw [show (x :: xs).length = xs.length + 1 from rfl]
  show (x :: xs.take n) :: chunksOfAux xs.length n (xs.drop n) = _
  congr 1
  apply chunksOfAux_fuel
  · simp only [List.length_drop]
    omega
  · exact Nat.le_refl _

theorem chunksOf_join (n : Nat) : ∀ (fuel : Nat) (xs : List α), xs.length ≤ fuel →
    (chunksOf (n + 1) xs).foldr (· ++ ·) [] = xs := by
  intro fuel
  induction fuel with
  | zero =>
      intro xs h
      have hx : xs = [] := List.length_eq_zero.mp (Nat.le_zero.mp h)
      subst hx
      rfl
  | succ fuel ih =>
      intro xs h
      cases xs with
      | nil => rfl
      | cons x xs' =>
          rw [chunksOf_cons]
          simp only [List.foldr_cons]
          rw [ih (xs'.drop n) (by simp only [List.length_drop, List.length_cons] at h ⊢; omega)]
          simp [List.take_append_drop]

theorem runTasks_getElem? (f : α → β) (xs : List α) (sched : List Nat) :
    ∀ (acc : List (Option β)) (j : Nat),
      (runTasks f xs sched acc)[j]? =
        if j ∈ sched ∧ j < acc.length then some ((xs.get? j).map f) else acc[j]? := by
  induction sched with
  | nil =>
      intro acc j
      simp [runTasks]
  | cons i rest ih =>
      intro acc j
      rw [show runTasks f xs (i :: rest) acc =
        runTasks f xs rest (acc.set i ((xs.get? i).map f)) from rfl]
      rw [ih]
      by_cases hjr : j ∈ rest ∧ j < acc.length
      · rw [if_pos (by simpa [List.length_set] using hjr),
          if_pos ⟨List.mem_cons_of_mem _ hjr.1, hjr.2⟩]
      · rw [if_neg (by simpa [List.length_set] using hjr)]
        by_cases hji : j = i
        · subst hji
          by_cases hlt : j < acc.length
          · rw [List.getElem?_set_self hlt, if_pos ⟨List.mem_cons_self _ _, hlt⟩]
          · rw [if_neg fun hcon => hlt hcon.2]
            rw [List.getElem?_eq_none (by simp only [List.length_set]; omega),
              List.getElem?_eq_none (by omega)]
        · rw [List.getElem?_set_ne fun e => hji e.symm]
          rw [if_neg (by
            intro hcon
            rcases List.mem_cons.mp hcon.1 with h | h
            · exact hji h
            · exact hjr ⟨h, hcon.2⟩)]

theorem joinAll_eq_map (f : α → β) (xs : List α) (sched : List Nat)
    (hcover : ∀ j, j < xs.length → j ∈ sched) :
    joinAll f xs sched = xs.map (fun a => some (f a)) := by
  apply List.ext_getElem?
  intro j
  rw [joinAll, runTasks_getElem?]
  by_cases hj : j < xs.length
  · rw [if_pos ⟨hcover j hj, by simpa using hj⟩]
    simp [List.getElem?_eq_getElem hj]
  · rw [if_neg fun hcon => hj (by simpa using hcon.2)]
    rw [List.getElem?_eq_none (by simpa using Nat.le_of_not_lt hj),
      List.getElem?_eq_none (by simpa using Nat.le_of_not_lt hj)]

theorem syncAll_zip (f : α → β) : ∀ (chunks : List (List α)) (scheds : List (List Nat)),
    chunks.length = scheds.length →
    (∀ p ∈ chunks.zip scheds, ∀ i, i < p.1.length → i ∈ p.2) →
    (chunks.zip scheds).foldr (fun p acc => joinAll f p.1 p.2 ++ acc) [] =
      (chunks.foldr (· ++ ·) []).map (fun a => some (f a)) := by
  intro chunks
  induction chunks with
  | nil =>
      intro scheds _ _
      rfl
  | cons ch chunks ih =>
      intro scheds hlen hcov
      cases scheds with
      | nil => simp at hlen
      | cons sc scheds =>
          simp only [List.zip_cons_cons, List.foldr_cons]
          rw [joinAll_eq_map f ch sc fun j hj => hcov (ch, sc) (by simp) j hj]
          rw [ih scheds (by simpa using hlen) fun p hp i hi => hcov p (by simp [hp]) i hi]
          simp

/-! ## Claim theorem for the batch fetch scheduler -/

/-- Claim C9: for any completion orders of the concurrently-running
batches that complete every task, the chunked batch loop produces exactly
one result per input, in input order — the output is the input list mapped
through the per-item sync function, independently of which batch item
finishes first. -/
theorem C9_batch_results (f : α → β) (xs : List α) (scheds : List (List Nat))
    (hlen : scheds.length = (chunksOf 4 xs).length)
    (hcov : ∀ p ∈ (chunksOf 4 xs).zip scheds, ∀ i, i < p.1.length → i ∈ p.2) :
    sync_all f xs scheds = xs.map (fun a => some (f a)) := by
  rw [sync_all, syncAll_zip f _ _ hlen.symm hcov]
  rw [show (4 : Nat) = 3 + 1 from rfl, chunksOf_join 3 xs.length xs (Nat.le_refl _)]

/-- Claim C9 witness: five inputs in batches of four, with the first batch
completing out of order, still yield one result per input in input order. -/
theorem C9_batch_results_witness :
    sync_all Nat.succ [10, 20, 30, 40, 50] [[3, 0, 2, 1], [0]] =
      [10, 20, 30, 40, 50].map (fun a => some (Nat.succ a)) :=
  C9_batch_results Nat.succ [10, 20, 30, 40, 50] [[3, 0, 2, 1], [0]]
    (by decide) (by decide)

end Launcher
